import Mathlib

set_option maxHeartbeats 1600000

/-!
Verification development for the covalent dispatcher core
(src/covalent_dispatcher/_core/dispatcher.py) as a shallow embedding.
Pure functions of the source become Lean functions; the stateful event
loop becomes explicit state passing over a loop-state record, with the
status queue modelled as the list of events the loop consumes in order.
The result/graph store (data_manager, not under src/) is modelled as an
explicit store record following the interface in the spec, and
timestamps are modelled as reads from an arbitrary clock stream.
-/

namespace Covalent

/-- Modelled from the spec: the RESULT_STATUS enumeration
(covalent._shared_files.util_classes, not under src/). The five statuses
named by the spec sections 4.3 and 6, plus the initial NEW_OBJECT state. -/
inductive Status where
  | NEW_OBJECT
  | RUNNING
  | DISPATCHING
  | COMPLETED
  | FAILED
  | CANCELLED
deriving DecidableEq

/-- Transport graph of one dispatch: the node ids in insertion order and
the directed edge list (source, target). The underlying networkx graph is
a MultiDiGraph, so parallel edges may repeat in the list. -/
structure Graph where
  nodes : List Nat
  edges : List (Nat × Nat)

/-- In-degree of node n, counting parallel edges separately, as
networkx MultiDiGraph.in_degree does. -/
def indeg (g : Graph) (n : Nat) : Nat :=
  (g.edges.filter (fun e => e.2 == n)).length

/-- Modelled from the spec: datasvc.get_node_successors (data_manager is
not under src/). Section 6 gives the signature; section 4.1 requires that
each distinct parent-to-child edge decrements the pending count once, so
the successor list carries one entry per outgoing edge, duplicates
included. -/
def get_node_successors (g : Graph) (n : Nat) : List Nat :=
  (g.edges.filter (fun e => e.1 == n)).map (fun e => e.2)

/-- Number of edges from c to n, counting parallel edges. -/
def countEdges (g : Graph) (c n : Nat) : Nat :=
  (g.edges.filter (fun e => e.1 == c && e.2 == n)).length

/-- Number of edges into n whose source lies in the list comp. -/
def edgesFromCompleted (g : Graph) (comp : List Nat) (n : Nat) : Nat :=
  (g.edges.filter (fun e => e.2 == n && decide (e.1 ∈ comp))).length

/-- Well-formed graph: distinct node ids and edge endpoints drawn from the
node list. -/
def WFGraph (g : Graph) : Prop :=
  g.nodes.Nodup ∧ ∀ e ∈ g.edges, e.1 ∈ g.nodes ∧ e.2 ∈ g.nodes

instance (g : Graph) : Decidable (WFGraph g) := by
  unfold WFGraph; infer_instance

/-- Loop body of _get_initial_tasks_and_deps: one iteration per entry of
g.in_degree(), seeding pending_parents, counting tasks and collecting the
zero-in-degree nodes. -/
def initTasksGo (g : Graph) :
    List Nat → Nat × List Nat × (Nat → Int) → Nat × List Nat × (Nat → Int)
  | [], acc => acc
  | n :: rest, (num, ready, pending) =>
      let d := indeg g n
      let pending' := Function.update pending n (d : Int)
      let ready' := if d = 0 then ready ++ [n] else ready
      initTasksGo g rest (num + 1, ready', pending')

/-- Translation of _get_initial_tasks_and_deps
(src/covalent_dispatcher/_core/dispatcher.py): walk g.in_degree() and
return (num_tasks, ready_nodes, pending_parents). -/
def get_initial_tasks_and_deps (g : Graph) : Nat × List Nat × (Nat → Int) :=
  initTasksGo g g.nodes (0, [], fun _ => 0)

theorem initTasksGo_num (g : Graph) :
    ∀ (l : List Nat) (num : Nat) (ready : List Nat) (pending : Nat → Int),
      (initTasksGo g l (num, ready, pending)).1 = num + l.length := by
  intro l
  induction l with
  | nil => intro num ready pending; simp [initTasksGo]
  | cons n rest ih =>
      intro num ready pending
      simp only [initTasksGo, ih, List.length_cons]
      omega

theorem initTasksGo_ready (g : Graph) :
    ∀ (l : List Nat) (num : Nat) (ready : List Nat) (pending : Nat → Int),
      (initTasksGo g l (num, ready, pending)).2.1
        = ready ++ l.filter (fun n => indeg g n == 0) := by
  intro l
  induction l with
  | nil => intro num ready pending; simp [initTasksGo]
  | cons n rest ih =>
      intro num ready pending
      by_cases h : indeg g n = 0
      · have hb : (indeg g n == 0) = true := by simpa using h
        simp [initTasksGo, h, ih, List.filter_cons, hb]
      · have hb : (indeg g n == 0) = false := by simpa using h
        simp [initTasksGo, h, ih, List.filter_cons, hb]

theorem initTasksGo_pending_notmem (g : Graph) :
    ∀ (l : List Nat) (num : Nat) (ready : List Nat) (pending : Nat → Int)
      (n : Nat), n ∉ l →
      (initTasksGo g l (num, ready, pending)).2.2 n = pending n := by
  intro l
  induction l with
  | nil => intro num ready pending n _; simp [initTasksGo]
  | cons m rest ih =>
      intro num ready pending n hn
      have hnm : n ≠ m := by intro h; exact hn (h ▸ List.mem_cons_self m rest)
      have hnr : n ∉ rest := fun h => hn (List.mem_cons_of_mem m h)
      show (initTasksGo g rest (num + 1,
          if indeg g m = 0 then ready ++ [m] else ready,
          Function.update pending m (indeg g m : Int))).2.2 n = pending n
      rw [ih _ _ _ _ hnr]
      exact Function.update_noteq hnm _ _

theorem initTasksGo_pending_mem (g : Graph) :
    ∀ (l : List Nat) (num : Nat) (ready : List Nat) (pending : Nat → Int)
      (n : Nat), n ∈ l →
      (initTasksGo g l (num, ready, pending)).2.2 n = (indeg g n : Int) := by
  intro l
  induction l with
  | nil => intro num ready pending n h; cases h
  | cons m rest ih =>
      intro num ready pending n hn
      show (initTasksGo g rest (num + 1,
          if indeg g m = 0 then ready ++ [m] else ready,
          Function.update pending m (indeg g m : Int))).2.2 n = (indeg g n : Int)
      by_cases hr : n ∈ rest
      · exact ih _ _ _ _ hr
      · have hnm : n = m := by
          rcases List.mem_cons.mp hn with h | h
          · exact h
          · exact absurd h hr
        subst hnm
        rw [initTasksGo_pending_notmem g rest _ _ _ _ hr]
        exact Function.update_same _ _ _

/-- Modelled from the spec: the reserved name marker for parameter
pseudo-nodes (covalent._shared_files.defaults, not under src/; the spec
says a reserved prefix marks parameter nodes carrying literal values). -/
def parameter_prefix : String := ":parameter:"

/-- Python str.startswith, as the character-list prefix test. -/
def strStartsWith (s p : String) : Bool := p.data.isPrefixOf s.data

/-- One node-result record as written by update_node_result. -/
structure NodeResult where
  node_id : Nat
  start_time : Nat
  end_time : Nat
  status : Status
  output : String
deriving DecidableEq

/-- Modelled from the spec: the result/graph store of section 6
(data_manager is not under src/), with a clock oracle. Each
datetime.now() call reads clock_stream at the current index and advances
the index. The counters record datasvc.persist_result and
datasvc.finalize_dispatch lifecycle calls, status-queue creations, and
runner tasks created by asyncio.create_task. -/
structure Store where
  dispatch_status : Status
  dispatch_start : Option Nat
  dispatch_end : Option Nat
  dispatch_error : Option String
  num_nodes : Nat
  node_name : Nat → String
  node_value : Nat → String
  node_status : Nat → Status
  node_results_log : List NodeResult
  runner_tasks : List Nat
  queues_created : Nat
  persist_calls : Nat
  finalize_calls : Nat
  clock_stream : Nat → Nat
  clock_idx : Nat

/-- Clock read: one datetime.now(timezone.utc) call. -/
def now (st : Store) : Nat × Store :=
  (st.clock_stream st.clock_idx, { st with clock_idx := st.clock_idx + 1 })

/-- Modelled from the spec: datasvc.update_node_result stores the node
result record (section 6); the node status field is updated as in
Result._update_node (src/covalent_dispatcher/_dal/result.py). -/
def update_node_result (st : Store) (nr : NodeResult) : Store :=
  { st with
    node_status := Function.update st.node_status nr.node_id nr.status,
    node_results_log := st.node_results_log ++ [nr] }

/-- Translation of _submit_task
(src/covalent_dispatcher/_core/dispatcher.py): a node whose name starts
with the parameter marker is synchronously written to the store as
COMPLETED, with start_time and end_time taken from two successive
datetime.now() calls and output taken from the stored value attribute;
any other node has one runner task created for it
(asyncio.create_task on runner.run_abstract_task, recorded in
runner_tasks). -/
def submit_task (st : Store) (node_id : Nat) : Store :=
  let name := st.node_name node_id
  if strStartsWith name parameter_prefix then
    let t1 := now st
    let t2 := now t1.2
    update_node_result t2.2
      { node_id := node_id, start_time := t1.1, end_time := t2.1,
        status := Status.COMPLETED, output := st.node_value node_id }
  else
    { st with runner_tasks := st.runner_tasks ++ [node_id] }

/-- Translation of Result._get_incomplete_nodes
(src/covalent_dispatcher/_dal/result.py), the store side of
datasvc.get_incomplete_tasks: the (node_id, node_name) pairs of the
FAILED nodes and of the CANCELLED nodes, scanning ids 0..num_nodes-1. -/
def get_incomplete_tasks (st : Store) :
    List (Nat × String) × List (Nat × String) :=
  (((List.range st.num_nodes).filter
      (fun i => st.node_status i == Status.FAILED)).map
      (fun i => (i, st.node_name i)),
   ((List.range st.num_nodes).filter
      (fun i => st.node_status i == Status.CANCELLED)).map
      (fun i => (i, st.node_name i)))

/-- Message body built by _finalize_dispatch from the failed-node list. -/
def failedNodesMsg (failed : List (Nat × String)) : String :=
  String.intercalate "\n" (failed.map (fun x => toString x.1 ++ ": " ++ x.2))

/-- Translation of _finalize_dispatch
(src/covalent_dispatcher/_core/dispatcher.py): query the incomplete
tasks; if any failed or cancelled, write status (FAILED when any failed,
else CANCELLED), the error message built from the failed list only, and
an end_time; finally return the status field read back from the store. -/
def finalize_dispatch (st : Store) : Store × Status :=
  let inc := get_incomplete_tasks st
  let failed := inc.1
  let cancelled := inc.2
  let st' :=
    if failed ≠ [] ∨ cancelled ≠ [] then
      let error_msg := "The following tasks failed:\n" ++ failedNodesMsg failed
      let t := now st
      let status := if failed ≠ [] then Status.FAILED else Status.CANCELLED
      { t.2 with dispatch_status := status, dispatch_error := some error_msg,
                 dispatch_end := some t.1 }
    else st
  (st', st'.dispatch_status)

/-- Concrete store whose single node is CANCELLED, used against C1. -/
def c1Store : Store :=
  { dispatch_status := Status.RUNNING, dispatch_start := some 0,
    dispatch_end := none, dispatch_error := none, num_nodes := 1,
    node_name := fun _ => "c", node_value := fun _ => "",
    node_status := fun _ => Status.CANCELLED, node_results_log := [],
    runner_tasks := [], queues_created := 0, persist_calls := 0,
    finalize_calls := 0, clock_stream := fun i => i, clock_idx := 0 }

/-- Claim C1 counterexample: on a dispatch whose only terminal-failure
node is CANCELLED (node 0 named "c"), _finalize_dispatch writes the error
string "The following tasks failed:\n" with no node entries at all,
whereas the claim requires an entry for every failed or cancelled node,
here "0: c". -/
theorem c1_counterexample :
    (get_incomplete_tasks c1Store).2 = [(0, "c")] ∧
    (finalize_dispatch c1Store).1.dispatch_error
      = some "The following tasks failed:\n" ∧
    some "The following tasks failed:\n"
      ≠ some ("The following tasks failed:\n" ++ "0: c") := by
  refine ⟨by decide, by decide, by decide⟩

/-- Claim C1 (amended): when the graph has a node with terminal status
FAILED or CANCELLED, _finalize_dispatch sets the dispatch status to
FAILED if any node failed and to CANCELLED otherwise, sets end_time to
the clock read, sets the error field to "The following tasks failed:"
followed by the newline-joined "{node_id}: {node_name}" entries of the
FAILED nodes only (cancelled nodes are not listed), and returns the
status re-read from the store. -/
theorem c1_finalize_dispatch (st : Store)
    (h : (get_incomplete_tasks st).1 ≠ [] ∨ (get_incomplete_tasks st).2 ≠ []) :
    (finalize_dispatch st).1.dispatch_status
      = (if (get_incomplete_tasks st).1 ≠ [] then Status.FAILED
         else Status.CANCELLED) ∧
    (finalize_dispatch st).1.dispatch_end
      = some (st.clock_stream st.clock_idx) ∧
    (finalize_dispatch st).1.dispatch_error
      = some ("The following tasks failed:\n" ++ String.intercalate "\n"
          ((get_incomplete_tasks st).1.map
            (fun x => toString x.1 ++ ": " ++ x.2))) ∧
    (finalize_dispatch st).2 = (finalize_dispatch st).1.dispatch_status := by
  unfold finalize_dispatch
  simp [if_pos h, now, failedNodesMsg]

/-- Concrete store with one FAILED node, witnessing c1_finalize_dispatch. -/
def c1StoreF : Store :=
  { dispatch_status := Status.RUNNING, dispatch_start := some 0,
    dispatch_end := none, dispatch_error := none, num_nodes := 1,
    node_name := fun _ => "f", node_value := fun _ => "",
    node_status := fun _ => Status.FAILED, node_results_log := [],
    runner_tasks := [], queues_created := 0, persist_calls := 0,
    finalize_calls := 0, clock_stream := fun i => i, clock_idx := 7 }

/-- Witness for c1_finalize_dispatch at a store with one FAILED node. -/
theorem c1_finalize_dispatch_witness :
    ((get_incomplete_tasks c1StoreF).1 ≠ [] ∨
      (get_incomplete_tasks c1StoreF).2 ≠ []) ∧
    ((finalize_dispatch c1StoreF).1.dispatch_status
        = (if (get_incomplete_tasks c1StoreF).1 ≠ [] then Status.FAILED
           else Status.CANCELLED) ∧
      (finalize_dispatch c1StoreF).1.dispatch_end
        = some (c1StoreF.clock_stream c1StoreF.clock_idx) ∧
      (finalize_dispatch c1StoreF).1.dispatch_error
        = some ("The following tasks failed:\n" ++ String.intercalate "\n"
            ((get_incomplete_tasks c1StoreF).1.map
              (fun x => toString x.1 ++ ": " ++ x.2))) ∧
      (finalize_dispatch c1StoreF).2
        = (finalize_dispatch c1StoreF).1.dispatch_status) :=
  ⟨by decide, c1_finalize_dispatch c1StoreF (by decide)⟩

/-- Concrete store with a parameter node at id 0 and the identity clock
stream, used against C5. -/
def c5Store : Store :=
  { dispatch_status := Status.RUNNING, dispatch_start := some 0,
    dispatch_end := none, dispatch_error := none, num_nodes := 1,
    node_name := fun _ => ":parameter:x", node_value := fun _ => "5",
    node_status := fun _ => Status.NEW_OBJECT, node_results_log := [],
    runner_tasks := [], queues_created := 0, persist_calls := 0,
    finalize_calls := 0, clock_stream := fun i => i, clock_idx := 0 }

/-- Claim C5 counterexample: _submit_task reads datetime.now() twice, so
with a clock whose successive readings are 0 and 1 the parameter node is
stored with start_time 0 and end_time 1, contradicting the claimed
start_time = end_time. -/
theorem c5_counterexample :
    ((submit_task c5Store 0).node_results_log.map
        (fun r => (r.start_time, r.end_time))) = [(0, 1)] ∧
      (0 : Nat) ≠ 1 := by
  refine ⟨by decide, by decide⟩

/-- Claim C5 (amended): for every node whose name starts with the
reserved parameter marker, _submit_task synchronously writes exactly one
node result with status COMPLETED and output equal to the stored value
attribute, with start_time and end_time taken from two successive clock
reads, start_time first (equal only when the clock repeats a value), and
creates no runner task. -/
theorem c5_submit_task (st : Store) (n : Nat)
    (h : strStartsWith (st.node_name n) parameter_prefix = true) :
    (submit_task st n).node_results_log = st.node_results_log ++
      [{ node_id := n, start_time := st.clock_stream st.clock_idx,
         end_time := st.clock_stream (st.clock_idx + 1),
         status := Status.COMPLETED, output := st.node_value n }] ∧
    (submit_task st n).runner_tasks = st.runner_tasks ∧
    (submit_task st n).node_status n = Status.COMPLETED ∧
    (submit_task st n).clock_idx = st.clock_idx + 2 := by
  unfold submit_task
  simp [h, now, update_node_result]

/-- Witness for c5_submit_task at the concrete parameter-node store. -/
theorem c5_submit_task_witness :
    (strStartsWith (c5Store.node_name 0) parameter_prefix = true) ∧
    ((submit_task c5Store 0).node_results_log = c5Store.node_results_log ++
        [{ node_id := 0, start_time := c5Store.clock_stream c5Store.clock_idx,
           end_time := c5Store.clock_stream (c5Store.clock_idx + 1),
           status := Status.COMPLETED, output := c5Store.node_value 0 }] ∧
      (submit_task c5Store 0).runner_tasks = c5Store.runner_tasks ∧
      (submit_task c5Store 0).node_status 0 = Status.COMPLETED ∧
      (submit_task c5Store 0).clock_idx = c5Store.clock_idx + 2) :=
  ⟨by decide, c5_submit_task c5Store 0 (by decide)⟩

/-- One status-queue entry (node_id, node_status, detail). The detail
field models detail["sub_dispatch_id"], read only on DISPATCHING. -/
structure Event where
  node_id : Nat
  status : Status
  detail : String

/-- State of one _run_planned_workflow loop: the Python locals
(unresolved_tasks, tasks_left, pending_parents), the store, and
append-only logs of the observable actions: submitted records every
_submit_task call in order, dispatched every run_dispatch call for a
sublattice, terminalsSeen every event that decremented
unresolved_tasks together with its status, completedSeen every
COMPLETED node id in order. -/
structure LoopState where
  unresolved : Int
  tasksLeft : Int
  pending : Nat → Int
  store : Store
  submitted : List Nat
  dispatched : List String
  terminalsSeen : List (Nat × Status)
  completedSeen : List Nat

/-- Loop body of _handle_completed_node: for each successor child,
decrement pending_parents[child] and, if the updated count is below one,
queue the child as ready. -/
def decrementChildren :
    (Nat → Int) → List Nat → List Nat → List Nat × (Nat → Int)
  | pending, ready, [] => (ready, pending)
  | pending, ready, child :: rest =>
      let newVal := pending child - 1
      let pending' := Function.update pending child newVal
      let ready' := if newVal < 1 then ready ++ [child] else ready
      decrementChildren pending' ready' rest

/-- Translation of _handle_completed_node
(src/covalent_dispatcher/_core/dispatcher.py): walk the successors of
the completed node and collect the children whose pending count drops
below one. -/
def handle_completed_node (g : Graph) (c : Nat) (pending : Nat → Int) :
    List Nat × (Nat → Int) :=
  decrementChildren pending [] (get_node_successors g c)

/-- One submission step of the loop: unresolved_tasks += 1 followed by
_submit_task. -/
def submitOne (s : LoopState) (n : Nat) : LoopState :=
  { s with unresolved := s.unresolved + 1,
           store := submit_task s.store n,
           submitted := s.submitted ++ [n] }

/-- Submit each node of the list in order. -/
def submitAll : LoopState → List Nat → LoopState
  | s, [] => s
  | s, n :: rest => submitAll (submitOne s n) rest

/-- Loop body of _run_planned_workflow for one status-queue entry:
RUNNING is ignored; DISPATCHING starts the sublattice dispatch
(run_dispatch, fire-and-forget, recorded in dispatched) without touching
unresolved_tasks; any other status decrements unresolved_tasks, and
COMPLETED additionally decrements tasks_left, updates pending_parents via
_handle_completed_node and submits each newly ready node. -/
def processEvent (g : Graph) (s : LoopState) (e : Event) : LoopState :=
  if e.status = Status.RUNNING then s
  else if e.status = Status.DISPATCHING then
    { s with dispatched := s.dispatched ++ [e.detail] }
  else
    let s1 := { s with unresolved := s.unresolved - 1,
                       terminalsSeen := s.terminalsSeen ++ [(e.node_id, e.status)] }
    if e.status = Status.COMPLETED then
      let rp := handle_completed_node g e.node_id s1.pending
      let s2 := { s1 with tasksLeft := s1.tasksLeft - 1, pending := rp.2,
                          completedSeen := s1.completedSeen ++ [e.node_id] }
      submitAll s2 rp.1
    else s1

/-- The while-loop of _run_planned_workflow: while unresolved_tasks > 0,
await the next status-queue entry and process it. The second component
returns the events not consumed; a run that drains its event list while
unresolved_tasks is still positive corresponds to the real loop blocking
on the queue. -/
def runLoop (g : Graph) : LoopState → List Event → LoopState × List Event
  | s, [] => (s, [])
  | s, e :: rest =>
      if s.unresolved > 0 then runLoop g (processEvent g s e) rest
      else (s, e :: rest)

/-- Start of _run_planned_workflow: persist the dispatch as RUNNING with
start_time from the clock. -/
def dispatchStartStore (st : Store) : Store :=
  let t := now st
  { t.2 with dispatch_status := Status.RUNNING, dispatch_start := some t.1 }

/-- Loop state at the top of the while loop: dispatch marked RUNNING,
counters seeded by _get_initial_tasks_and_deps and every initial ready
node submitted. -/
def initialLoopState (g : Graph) (st : Store) : LoopState :=
  let init := get_initial_tasks_and_deps g
  submitAll
    { unresolved := 0, tasksLeft := (init.1 : Int), pending := init.2.2,
      store := dispatchStartStore st, submitted := [], dispatched := [],
      terminalsSeen := [], completedSeen := [] }
    init.2.1

/-- Translation of _run_planned_workflow
(src/covalent_dispatcher/_core/dispatcher.py): mark RUNNING, submit the
initial ready nodes, consume status events while unresolved_tasks > 0,
then finalize and return what _finalize_dispatch returns. -/
def run_planned_workflow (g : Graph) (st : Store) (events : List Event) :
    Status × LoopState × List Event :=
  let r := runLoop g (initialLoopState g st) events
  let f := finalize_dispatch r.1.store
  (f.2, { r.1 with store := f.1 }, r.2)

/-- The finally block of run_workflow: datasvc.persist_result followed by
datasvc.finalize_dispatch bookkeeping. -/
def cleanupStore (st : Store) : Store :=
  { st with persist_calls := st.persist_calls + 1,
            finalize_calls := st.finalize_calls + 1 }

/-- Translation of run_workflow
(src/covalent_dispatcher/_core/dispatcher.py), abstracted over the
outcome of its try block (plan, status-queue creation and
_run_planned_workflow): ok carries the store and status the run
produced; error carries the store at the raise point together with the
formatted exception traceback (the runner that raises executor-resolution
errors is not under src/, so the raise itself is abstract). A COMPLETED
stored status short-circuits before the try block with only the
datasvc.finalize_dispatch bookkeeping call; otherwise the except branch
persists FAILED with the traceback and an end_time, and the finally
block runs on either outcome. -/
def run_workflow_outcome (st : Store)
    (outcome : Except (Store × String) (Store × Status)) : Store × Status :=
  if st.dispatch_status = Status.COMPLETED then
    ({ st with finalize_calls := st.finalize_calls + 1 }, Status.COMPLETED)
  else
    match outcome with
    | Except.ok (st1, ds) => (cleanupStore st1, ds)
    | Except.error (st1, msg) =>
        let t := now st1
        let st2 := { t.2 with dispatch_status := Status.FAILED,
                              dispatch_error := some msg,
                              dispatch_end := some t.1 }
        (cleanupStore st2, Status.FAILED)

/-- The run_workflow composition for the exception-free case: the try
block creates the status queue and runs the planned workflow. -/
def run_workflow (g : Graph) (st : Store) (events : List Event) :
    Store × Status :=
  let r := run_planned_workflow g
      { st with queues_created := st.queues_created + 1 } events
  run_workflow_outcome st (Except.ok (r.2.1.store, r.1))

theorem runLoop_nonpos (g : Graph) (s : LoopState) (events : List Event)
    (h : s.unresolved ≤ 0) : runLoop g s events = (s, events) := by
  cases events with
  | nil => rfl
  | cons e rest =>
      simp only [runLoop]
      rw [if_neg (by omega)]

theorem runLoop_cons_pos (g : Graph) (s : LoopState) (e : Event)
    (rest : List Event) (h : 0 < s.unresolved) :
    runLoop g s (e :: rest) = runLoop g (processEvent g s e) rest := by
  simp only [runLoop]
  rw [if_pos h]

/-- Sample store: a fresh dispatch in RUNNING state over zero nodes with
the identity clock stream. -/
def sampleStore : Store :=
  { dispatch_status := Status.RUNNING, dispatch_start := none,
    dispatch_end := none, dispatch_error := none, num_nodes := 0,
    node_name := fun _ => "task", node_value := fun _ => "",
    node_status := fun _ => Status.NEW_OBJECT, node_results_log := [],
    runner_tasks := [], queues_created := 0, persist_calls := 0,
    finalize_calls := 0, clock_stream := fun i => i, clock_idx := 0 }

/-- Claim C10: on a dispatch whose graph has no nodes,
_run_planned_workflow marks the dispatch RUNNING, submits nothing, never
reads the status queue, and returns the status _finalize_dispatch reads
back from the store, which is still RUNNING: neither COMPLETED nor
FAILED. -/
theorem c10_run_planned_workflow (g : Graph) (st : Store)
    (events : List Event) (h1 : g.nodes = []) (h2 : st.num_nodes = 0) :
    (run_planned_workflow g st events).1 = Status.RUNNING ∧
    (run_planned_workflow g st events).2.1.submitted = [] ∧
    (run_planned_workflow g st events).2.2 = events ∧
    (run_planned_workflow g st events).2.1.store.dispatch_status
      = Status.RUNNING ∧
    (run_planned_workflow g st events).2.1.store.runner_tasks
      = st.runner_tasks ∧
    (run_planned_workflow g st events).2.1.store.node_results_log
      = st.node_results_log ∧
    Status.RUNNING ≠ Status.COMPLETED ∧ Status.RUNNING ≠ Status.FAILED := by
  have hu : (initialLoopState g st).unresolved = 0 := by
    simp [initialLoopState, get_initial_tasks_and_deps, h1, initTasksGo,
      submitAll]
  have hsub : (initialLoopState g st).submitted = [] := by
    simp [initialLoopState, get_initial_tasks_and_deps, h1, initTasksGo,
      submitAll]
  have hst : (initialLoopState g st).store = dispatchStartStore st := by
    simp [initialLoopState, get_initial_tasks_and_deps, h1, initTasksGo,
      submitAll]
  have hfin : finalize_dispatch (dispatchStartStore st)
      = (dispatchStartStore st, Status.RUNNING) := by
    simp [finalize_dispatch, get_incomplete_tasks, h2, dispatchStartStore,
      now]
  have hrun : runLoop g (initialLoopState g st) events
      = (initialLoopState g st, events) := by
    apply runLoop_nonpos
    rw [hu]
  unfold run_planned_workflow
  rw [hrun]
  simp only [hst, hfin, hsub]
  simp [dispatchStartStore, now]

/-- Witness for c10_run_planned_workflow on the empty graph. -/
theorem c10_run_planned_workflow_witness :
    (Graph.mk [] []).nodes = [] ∧ sampleStore.num_nodes = 0 ∧
    ((run_planned_workflow (Graph.mk [] []) sampleStore []).1
        = Status.RUNNING ∧
      (run_planned_workflow (Graph.mk [] []) sampleStore []).2.1.submitted
        = [] ∧
      (run_planned_workflow (Graph.mk [] []) sampleStore []).2.2 = [] ∧
      (run_planned_workflow
          (Graph.mk [] []) sampleStore []).2.1.store.dispatch_status
        = Status.RUNNING ∧
      (run_planned_workflow
          (Graph.mk [] []) sampleStore []).2.1.store.runner_tasks
        = sampleStore.runner_tasks ∧
      (run_planned_workflow
          (Graph.mk [] []) sampleStore []).2.1.store.node_results_log
        = sampleStore.node_results_log ∧
      Status.RUNNING ≠ Status.COMPLETED ∧ Status.RUNNING ≠ Status.FAILED) :=
  ⟨rfl, rfl, c10_run_planned_workflow (Graph.mk [] []) sampleStore [] rfl rfl⟩

/-- Claim C6: when the stored dispatch status is already COMPLETED,
run_workflow returns COMPLETED at once: the store is left untouched
except for the single datasvc.finalize_dispatch bookkeeping call; no
task is submitted, no runner task or status queue is created, and no
dispatch or node state is written. -/
theorem c6_run_workflow (g : Graph) (st : Store) (events : List Event)
    (h : st.dispatch_status = Status.COMPLETED) :
    run_workflow g st events
      = ({ st with finalize_calls := st.finalize_calls + 1 },
         Status.COMPLETED) ∧
    (run_workflow g st events).1.runner_tasks = st.runner_tasks ∧
    (run_workflow g st events).1.node_results_log = st.node_results_log ∧
    (run_workflow g st events).1.queues_created = st.queues_created ∧
    (run_workflow g st events).1.persist_calls = st.persist_calls ∧
    (run_workflow g st events).1.dispatch_status = st.dispatch_status ∧
    (run_workflow g st events).1.dispatch_error = st.dispatch_error ∧
    (run_workflow g st events).1.dispatch_end = st.dispatch_end ∧
    (run_workflow g st events).1.finalize_calls = st.finalize_calls + 1 ∧
    (run_workflow g st events).2 = Status.COMPLETED := by
  have he : run_workflow g st events
      = ({ st with finalize_calls := st.finalize_calls + 1 },
         Status.COMPLETED) := by
    unfold run_workflow run_workflow_outcome
    rw [if_pos h]
  rw [he]
  simp

/-- Store whose dispatch is already COMPLETED, used for C6. -/
def c6Store : Store :=
  { sampleStore with dispatch_status := Status.COMPLETED }

/-- Witness for c6_run_workflow at a COMPLETED store. -/
theorem c6_run_workflow_witness :
    c6Store.dispatch_status = Status.COMPLETED ∧
    (run_workflow (Graph.mk [] []) c6Store []
        = ({ c6Store with finalize_calls := c6Store.finalize_calls + 1 },
           Status.COMPLETED) ∧
      (run_workflow (Graph.mk [] []) c6Store []).1.runner_tasks
        = c6Store.runner_tasks ∧
      (run_workflow (Graph.mk [] []) c6Store []).1.node_results_log
        = c6Store.node_results_log ∧
      (run_workflow (Graph.mk [] []) c6Store []).1.queues_created
        = c6Store.queues_created ∧
      (run_workflow (Graph.mk [] []) c6Store []).1.persist_calls
        = c6Store.persist_calls ∧
      (run_workflow (Graph.mk [] []) c6Store []).1.dispatch_status
        = c6Store.dispatch_status ∧
      (run_workflow (Graph.mk [] []) c6Store []).1.dispatch_error
        = c6Store.dispatch_error ∧
      (run_workflow (Graph.mk [] []) c6Store []).1.dispatch_end
        = c6Store.dispatch_end ∧
      (run_workflow (Graph.mk [] []) c6Store []).1.finalize_calls
        = c6Store.finalize_calls + 1 ∧
      (run_workflow (Graph.mk [] []) c6Store []).2 = Status.COMPLETED) :=
  ⟨rfl, c6_run_workflow (Graph.mk [] []) c6Store [] rfl⟩

/-- Claim C7: when the stored status is not COMPLETED, run_workflow with
an exceptional inner outcome (any exception from the planned run,
including an executor-resolution error raised at submission time) writes
FAILED with the formatted traceback as the error field and an end_time
and returns FAILED; on either outcome, ok or error, the finally block
runs persist_result and finalize_dispatch exactly once before
returning. -/
theorem c7_run_workflow_outcome (st stO stE : Store) (ds : Status)
    (msg : String) (h : st.dispatch_status ≠ Status.COMPLETED) :
    (run_workflow_outcome st (Except.ok (stO, ds))).1 = cleanupStore stO ∧
    (run_workflow_outcome st (Except.ok (stO, ds))).1.persist_calls
      = stO.persist_calls + 1 ∧
    (run_workflow_outcome st (Except.ok (stO, ds))).1.finalize_calls
      = stO.finalize_calls + 1 ∧
    (run_workflow_outcome st (Except.ok (stO, ds))).2 = ds ∧
    (run_workflow_outcome st (Except.error (stE, msg))).2 = Status.FAILED ∧
    (run_workflow_outcome st (Except.error (stE, msg))).1.dispatch_status
      = Status.FAILED ∧
    (run_workflow_outcome st (Except.error (stE, msg))).1.dispatch_error
      = some msg ∧
    (run_workflow_outcome st (Except.error (stE, msg))).1.dispatch_end
      = some (stE.clock_stream stE.clock_idx) ∧
    (run_workflow_outcome st (Except.error (stE, msg))).1.persist_calls
      = stE.persist_calls + 1 ∧
    (run_workflow_outcome st (Except.error (stE, msg))).1.finalize_calls
      = stE.finalize_calls + 1 := by
  simp [run_workflow_outcome, if_neg h, cleanupStore, now]

/-- Witness for c7_run_workflow_outcome at concrete stores. -/
theorem c7_run_workflow_outcome_witness :
    sampleStore.dispatch_status ≠ Status.COMPLETED ∧
    ((run_workflow_outcome sampleStore
          (Except.ok (sampleStore, Status.COMPLETED))).1
        = cleanupStore sampleStore ∧
      (run_workflow_outcome sampleStore
          (Except.ok (sampleStore, Status.COMPLETED))).1.persist_calls
        = sampleStore.persist_calls + 1 ∧
      (run_workflow_outcome sampleStore
          (Except.ok (sampleStore, Status.COMPLETED))).1.finalize_calls
        = sampleStore.finalize_calls + 1 ∧
      (run_workflow_outcome sampleStore
          (Except.ok (sampleStore, Status.COMPLETED))).2
        = Status.COMPLETED ∧
      (run_workflow_outcome sampleStore
          (Except.error (sampleStore, "tb"))).2 = Status.FAILED ∧
      (run_workflow_outcome sampleStore
          (Except.error (sampleStore, "tb"))).1.dispatch_status
        = Status.FAILED ∧
      (run_workflow_outcome sampleStore
          (Except.error (sampleStore, "tb"))).1.dispatch_error
        = some "tb" ∧
      (run_workflow_outcome sampleStore
          (Except.error (sampleStore, "tb"))).1.dispatch_end
        = some (sampleStore.clock_stream sampleStore.clock_idx) ∧
      (run_workflow_outcome sampleStore
          (Except.error (sampleStore, "tb"))).1.persist_calls
        = sampleStore.persist_calls + 1 ∧
      (run_workflow_outcome sampleStore
          (Except.error (sampleStore, "tb"))).1.finalize_calls
        = sampleStore.finalize_calls + 1) :=
  ⟨by decide,
   c7_run_workflow_outcome sampleStore sampleStore sampleStore
     Status.COMPLETED "tb" (by decide)⟩

/-- Attributes of one incoming edge, as returned by
datasvc.get_incoming_edges (spec section 6): param_type, arg_index for
positional arguments, edge_name for keyword arguments, and the
ordering-only wait_for flag. -/
structure EdgeAttrs where
  param_type : String
  arg_index : Nat
  edge_name : String
  wait_for : Bool
deriving DecidableEq

/-- One incoming edge: its source (parent node id) and its attributes. -/
structure InEdge where
  source : Nat
  attrs : EdgeAttrs
deriving DecidableEq

/-- Python dict assignment kwargs[key] = value: replace in place if the
key exists, else append. -/
def dictInsert : List (String × Nat) → String → Nat → List (String × Nat)
  | [], k, v => [(k, v)]
  | (k', v') :: rest, k, v =>
      if k' = k then (k, v) :: rest else (k', v') :: dictInsert rest k v

/-- Python dict lookup: the value at the first matching key. -/
def assocLookup : List (String × Nat) → String → Option Nat
  | [], _ => none
  | (k', v) :: rest, k => if k' = k then some v else assocLookup rest k

/-- Edge-scanning loop of _get_abstract_task_inputs: for each non-wait_for
incoming edge, an "arg" edge appends (parent, arg_index) and a "kwarg"
edge assigns kwargs[edge_name] = parent. -/
def collectInputs :
    List InEdge → List (Nat × Nat) × List (String × Nat)
      → List (Nat × Nat) × List (String × Nat)
  | [], acc => acc
  | e :: rest, (args, kwargs) =>
      if e.attrs.wait_for then collectInputs rest (args, kwargs)
      else if e.attrs.param_type = "arg" then
        collectInputs rest (args ++ [(e.source, e.attrs.arg_index)], kwargs)
      else if e.attrs.param_type = "kwarg" then
        collectInputs rest
          (args, dictInsert kwargs e.attrs.edge_name e.source)
      else collectInputs rest (args, kwargs)

/-- Sort key of sorted(args, key = lambda x: x[1]): compare arg_index. -/
def leIdx (a b : Nat × Nat) : Prop := a.2 ≤ b.2

instance : DecidableRel leIdx := fun a b => Nat.decLe a.2 b.2

instance : IsTotal (Nat × Nat) leIdx := ⟨fun a b => Nat.le_total a.2 b.2⟩

instance : IsTrans (Nat × Nat) leIdx := ⟨fun _ _ _ h1 h2 => le_trans h1 h2⟩

/-- Translation of _get_abstract_task_inputs
(src/covalent_dispatcher/_core/dispatcher.py): scan the incoming edges,
sort the collected (parent, arg_index) pairs by arg_index with a stable
sort and keep the parents; kwargs maps edge_name to parent node id. -/
def get_abstract_task_inputs (edges : List InEdge) :
    List Nat × List (String × Nat) :=
  let c := collectInputs edges ([], [])
  ((List.insertionSort leIdx c.1).map Prod.fst, c.2)

/-- Option fallback: first value if present, else the second. -/
def orElseO (a b : Option Nat) : Option Nat :=
  match a with
  | some v => some v
  | none => b

/-- Last element of a value list, if any. -/
def lastValue : List Nat → Option Nat
  | [] => none
  | v :: rest => orElseO (lastValue rest) (some v)

/-- The non-wait_for "arg" edges, as (parent, arg_index) pairs. -/
def argPairs (edges : List InEdge) : List (Nat × Nat) :=
  (edges.filter
      (fun e => !e.attrs.wait_for && e.attrs.param_type == "arg")).map
    (fun e => (e.source, e.attrs.arg_index))

/-- The parents of the non-wait_for "kwarg" edges named k, in order. -/
def kwSources (edges : List InEdge) (k : String) : List Nat :=
  (edges.filter
      (fun e => !e.attrs.wait_for && e.attrs.param_type == "kwarg"
        && e.attrs.edge_name == k)).map
    (fun e => e.source)

theorem collectInputs_args :
    ∀ (edges : List InEdge) (args : List (Nat × Nat))
      (kwargs : List (String × Nat)),
      (collectInputs edges (args, kwargs)).1 = args ++ argPairs edges := by
  intro edges
  induction edges with
  | nil => intro args kwargs; simp [collectInputs, argPairs]
  | cons e rest ih =>
      intro args kwargs
      by_cases hw : e.attrs.wait_for
      · simp [collectInputs, hw, ih, argPairs]
      · by_cases ha : e.attrs.param_type = "arg"
        · simp [collectInputs, hw, ha, ih, argPairs, List.filter_cons]
        · by_cases hk : e.attrs.param_type = "kwarg"
          · simp [collectInputs, hw, ha, hk, ih, argPairs, List.filter_cons]
          · simp [collectInputs, hw, ha, hk, ih, argPairs, List.filter_cons]

theorem assocLookup_dictInsert_same (k : String) (v : Nat) :
    ∀ l : List (String × Nat), assocLookup (dictInsert l k v) k = some v := by
  intro l
  induction l with
  | nil => simp [dictInsert, assocLookup]
  | cons p rest ih =>
      by_cases h : p.1 = k
      · simp [dictInsert, h, assocLookup]
      · simp [dictInsert, h, assocLookup, ih]

theorem assocLookup_dictInsert_other (k k' : String) (v : Nat)
    (hk : k' ≠ k) :
    ∀ l : List (String × Nat),
      assocLookup (dictInsert l k' v) k = assocLookup l k := by
  intro l
  induction l with
  | nil => simp [dictInsert, assocLookup, hk]
  | cons p rest ih =>
      by_cases h : p.1 = k'
      · simp [dictInsert, h, assocLookup, hk, ih]
      · simp [dictInsert, h, assocLookup, ih]

theorem orElseO_some_absorb (a : Option Nat) (v : Nat) (b : Option Nat) :
    orElseO (orElseO a (some v)) b = orElseO a (some v) := by
  cases a <;> simp [orElseO]

theorem collectInputs_kwargs :
    ∀ (edges : List InEdge) (args : List (Nat × Nat))
      (kwargs : List (String × Nat)) (k : String),
      assocLookup (collectInputs edges (args, kwargs)).2 k
        = orElseO (lastValue (kwSources edges k)) (assocLookup kwargs k) := by
  intro edges
  induction edges with
  | nil => intro args kwargs k; simp [collectInputs, kwSources, lastValue, orElseO]
  | cons e rest ih =>
      intro args kwargs k
      by_cases hw : e.attrs.wait_for
      · simp [collectInputs, hw, ih, kwSources]
      · by_cases ha : e.attrs.param_type = "arg"
        · have : (e.attrs.param_type == "kwarg") = false := by
            simp [ha]
          simp [collectInputs, hw, ha, ih, kwSources, List.filter_cons, this]
        · by_cases hk : e.attrs.param_type = "kwarg"
          · by_cases hn : e.attrs.edge_name = k
            · subst hn
              simp [collectInputs, hw, ha, hk, ih, kwSources,
                List.filter_cons, assocLookup_dictInsert_same, lastValue,
                orElseO_some_absorb]
            · simp [collectInputs, hw, ha, hk, hn, ih, kwSources,
                List.filter_cons, assocLookup_dictInsert_other _ _ _ hn]
          · simp [collectInputs, hw, ha, hk, ih, kwSources,
              List.filter_cons]

/-- Claim C8: _get_abstract_task_inputs returns as args the parent node
ids of the incoming non-wait_for edges with param_type "arg", ordered by
ascending arg_index (stable sort of the (parent, arg_index) pairs, then
the parents), and as kwargs the mapping edge_name to parent node id over
the incoming non-wait_for "kwarg" edges (the last such edge wins, as a
Python dict assignment does); wait_for edges contribute to neither, and
every entry is a node-id placeholder. -/
theorem c8_get_abstract_task_inputs (edges : List InEdge) :
    (get_abstract_task_inputs edges).1
      = (List.insertionSort leIdx (argPairs edges)).map Prod.fst ∧
    List.Sorted leIdx (List.insertionSort leIdx (argPairs edges)) ∧
    List.Perm (List.insertionSort leIdx (argPairs edges))
      (argPairs edges) ∧
    (∀ k, assocLookup (get_abstract_task_inputs edges).2 k
        = lastValue (kwSources edges k)) := by
  refine ⟨?_, ?_, ?_, ?_⟩
  · show (List.insertionSort leIdx (collectInputs edges ([], [])).1).map
        Prod.fst = _
    rw [collectInputs_args edges [] []]
    simp
  · exact List.sorted_insertionSort leIdx (argPairs edges)
  · exact List.perm_insertionSort leIdx (argPairs edges)
  · intro k
    show assocLookup (collectInputs edges ([], [])).2 k = _
    rw [collectInputs_kwargs edges [] [] k]
    cases lastValue (kwSources edges k) <;> simp [assocLookup, orElseO]

theorem succCount (edges : List (Nat × Nat)) (c n : Nat) :
    ((edges.filter (fun e => e.1 == c)).map (fun e => e.2)).count n
      = (edges.filter (fun e => e.1 == c && e.2 == n)).length := by
  induction edges with
  | nil => simp
  | cons e rest ih =>
      by_cases h1 : e.1 = c
      · by_cases h2 : e.2 = n
        · simp [List.filter_cons, h1, h2, List.count_cons, ih]
        · simp [List.filter_cons, h1, h2, List.count_cons, ih]
      · simp [List.filter_cons, h1, ih]

theorem efcNil (edges : List (Nat × Nat)) (n : Nat) :
    (edges.filter
        (fun e => e.2 == n && decide (e.1 ∈ ([] : List Nat)))).length = 0 := by
  induction edges with
  | nil => rfl
  | cons e rest ih =>
      rw [List.filter_cons_of_neg]
      · exact ih
      · simp

theorem efcAppend (edges : List (Nat × Nat)) (comp : List Nat) (c n : Nat)
    (hc : c ∉ comp) :
    (edges.filter
        (fun e => e.2 == n && decide (e.1 ∈ comp ++ [c]))).length
      = (edges.filter (fun e => e.2 == n && decide (e.1 ∈ comp))).length
        + (edges.filter (fun e => e.1 == c && e.2 == n)).length := by
  induction edges with
  | nil => rfl
  | cons e rest ih =>
      by_cases h2 : e.2 = n
      · by_cases hm : e.1 ∈ comp
        · have h1 : ¬ e.1 = c := fun h => hc (h ▸ hm)
          rw [List.filter_cons_of_pos (by simp [h2, hm]),
            List.filter_cons_of_pos (by simp [h2, hm]),
            List.filter_cons_of_neg (by simp [h1])]
          simp only [List.length_cons, ih]
          omega
        · by_cases h1 : e.1 = c
          · rw [List.filter_cons_of_pos (by simp [h2, h1]),
              List.filter_cons_of_neg (by simp [hm]),
              List.filter_cons_of_pos (by simp [h1, h2])]
            simp only [List.length_cons, ih]
            omega
          · rw [List.filter_cons_of_neg (by simp [hm, h1]),
              List.filter_cons_of_neg (by simp [hm]),
              List.filter_cons_of_neg (by simp [h1])]
            exact ih
      · rw [List.filter_cons_of_neg (by simp [h2]),
          List.filter_cons_of_neg (by simp [h2]),
          List.filter_cons_of_neg (by simp [h2])]
        exact ih

theorem efcLe (edges : List (Nat × Nat)) (comp : List Nat) (n : Nat) :
    (edges.filter (fun e => e.2 == n && decide (e.1 ∈ comp))).length
      ≤ (edges.filter (fun e => e.2 == n)).length := by
  induction edges with
  | nil => simp
  | cons e rest ih =>
      by_cases h2 : e.2 = n
      · by_cases hm : e.1 ∈ comp
        · rw [List.filter_cons_of_pos (by simp [h2, hm]),
            List.filter_cons_of_pos (by simp [h2])]
          simpa using ih
        · rw [List.filter_cons_of_neg (by simp [hm]),
            List.filter_cons_of_pos (by simp [h2])]
          simp only [List.length_cons]
          omega
      · rw [List.filter_cons_of_neg (by simp [h2]),
          List.filter_cons_of_neg (by simp [h2])]
        exact ih

theorem efcFullIff (edges : List (Nat × Nat)) (comp : List Nat) (n : Nat) :
    ((edges.filter (fun e => e.2 == n && decide (e.1 ∈ comp))).length
        = (edges.filter (fun e => e.2 == n)).length)
      ↔ ∀ e ∈ edges, e.2 = n → e.1 ∈ comp := by
  induction edges with
  | nil => simp
  | cons e rest ih =>
      constructor
      · intro h e' he' h2'
        rcases List.mem_cons.mp he' with rfl | hmem
        · by_cases hm : e'.1 ∈ comp
          · exact hm
          · exfalso
            rw [List.filter_cons_of_neg (by simp [hm]),
              List.filter_cons_of_pos (by simp [h2'])] at h
            have hle := efcLe rest comp n
            simp only [List.length_cons] at h
            omega
        · by_cases h2 : e.2 = n
          · by_cases hm : e.1 ∈ comp
            · rw [List.filter_cons_of_pos (by simp [h2, hm]),
                List.filter_cons_of_pos (by simp [h2])] at h
              simp only [List.length_cons] at h
              exact ih.mp (by omega) e' hmem h2'
            · exfalso
              rw [List.filter_cons_of_neg (by simp [hm]),
                List.filter_cons_of_pos (by simp [h2])] at h
              have hle := efcLe rest comp n
              simp only [List.length_cons] at h
              omega
          · rw [List.filter_cons_of_neg (by simp [h2]),
              List.filter_cons_of_neg (by simp [h2])] at h
            exact ih.mp h e' hmem h2'
      · intro h
        by_cases h2 : e.2 = n
        · have hm : e.1 ∈ comp := h e (List.mem_cons_self e rest) h2
          rw [List.filter_cons_of_pos (by simp [h2, hm]),
            List.filter_cons_of_pos (by simp [h2])]
          simp only [List.length_cons]
          have := ih.mpr (fun e' he' => h e' (List.mem_cons_of_mem e he'))
          omega
        · rw [List.filter_cons_of_neg (by simp [h2]),
            List.filter_cons_of_neg (by simp [h2])]
          exact ih.mpr (fun e' he' => h e' (List.mem_cons_of_mem e he'))

theorem countEdges_succ (g : Graph) (c n : Nat) :
    (get_node_successors g c).count n = countEdges g c n :=
  succCount g.edges c n

theorem edgesFromCompleted_nil (g : Graph) (n : Nat) :
    edgesFromCompleted g [] n = 0 :=
  efcNil g.edges n

theorem edgesFromCompleted_append (g : Graph) (comp : List Nat) (c n : Nat)
    (hc : c ∉ comp) :
    edgesFromCompleted g (comp ++ [c]) n
      = edgesFromCompleted g comp n + countEdges g c n :=
  efcAppend g.edges comp c n hc

theorem edgesFromCompleted_le (g : Graph) (comp : List Nat) (n : Nat) :
    edgesFromCompleted g comp n ≤ indeg g n :=
  efcLe g.edges comp n

theorem edgesFromCompleted_eq_indeg_iff (g : Graph) (comp : List Nat)
    (n : Nat) :
    (edgesFromCompleted g comp n = indeg g n)
      ↔ ∀ e ∈ g.edges, e.2 = n → e.1 ∈ comp :=
  efcFullIff g.edges comp n

theorem edgesFromCompleted_lt (g : Graph) (comp : List Nat) (n : Nat)
    (e0 : Nat × Nat) (he : e0 ∈ g.edges) (h2 : e0.2 = n)
    (h1 : e0.1 ∉ comp) :
    edgesFromCompleted g comp n < indeg g n := by
  have hle := edgesFromCompleted_le g comp n
  have hne : edgesFromCompleted g comp n ≠ indeg g n := by
    intro h
    exact h1 ((edgesFromCompleted_eq_indeg_iff g comp n).mp h e0 he h2)
  omega

theorem indeg_eq_zero_iff (g : Graph) (n : Nat) :
    indeg g n = 0 ↔ ∀ e ∈ g.edges, ¬ e.2 = n := by
  simp [indeg, List.length_eq_zero, List.filter_eq_nil_iff]

theorem countEdges_pos_mem (g : Graph) (c n : Nat)
    (h : 0 < countEdges g c n) :
    ∃ e ∈ g.edges, e.1 = c ∧ e.2 = n := by
  unfold countEdges at h
  rcases List.exists_mem_of_length_pos h with ⟨e, he⟩
  rcases List.mem_filter.mp he with ⟨hmem, hcond⟩
  refine ⟨e, hmem, ?_, ?_⟩
  · have := (Bool.and_eq_true _ _).mp hcond
    simpa using this.1
  · have := (Bool.and_eq_true _ _).mp hcond
    simpa using this.2

theorem countEdges_pos_of_edge (g : Graph) (e0 : Nat × Nat)
    (he : e0 ∈ g.edges) (c n : Nat) (h1 : e0.1 = c) (h2 : e0.2 = n) :
    0 < countEdges g c n := by
  unfold countEdges
  have : e0 ∈ g.edges.filter (fun e => e.1 == c && e.2 == n) := by
    rw [List.mem_filter]
    exact ⟨he, by simp [h1, h2]⟩
  exact List.length_pos.mpr (List.ne_nil_of_mem this)

theorem count_cons_self_nat (child : Nat) (rest : List Nat) :
    (child :: rest).count child = rest.count child + 1 := by
  simp [List.count_cons]

theorem count_cons_ne_nat (child n : Nat) (rest : List Nat) (h : ¬ n = child) :
    (child :: rest).count n = rest.count n := by
  have : (child == n) = false := by
    simp [beq_iff_eq]
    exact fun hh => h hh.symm
  simp [List.count_cons, this]

theorem count_le_cons_nat (child m : Nat) (rest : List Nat) :
    rest.count m ≤ (child :: rest).count m := by
  by_cases h : m = child
  · subst h; rw [count_cons_self_nat]; omega
  · rw [count_cons_ne_nat child m rest h]

theorem decrementChildren_pending (L : List Nat) :
    ∀ (pending : Nat → Int) (ready : List Nat) (n : Nat),
      (decrementChildren pending ready L).2 n
        = pending n - (L.count n : Int) := by
  induction L with
  | nil => intro pending ready n; simp [decrementChildren]
  | cons child rest ih =>
      intro pending ready n
      show (decrementChildren
          (Function.update pending child (pending child - 1))
          (if pending child - 1 < 1 then ready ++ [child] else ready)
          rest).2 n = pending n - ((child :: rest).count n : Int)
      rw [ih]
      by_cases h : n = child
      · subst h
        rw [Function.update_same, count_cons_self_nat]
        push_cast
        ring
      · rw [Function.update_noteq h, count_cons_ne_nat child n rest h]

theorem decrementChildren_count (L : List Nat) :
    ∀ (pending : Nat → Int) (ready : List Nat) (n : Nat),
      (∀ m, (L.count m : Int) ≤ pending m) →
      ((decrementChildren pending ready L).1).count n
        = ready.count n
          + (if 0 < L.count n ∧ pending n = (L.count n : Int)
             then 1 else 0) := by
  induction L with
  | nil =>
      intro pending ready n h
      simp [decrementChildren]
  | cons child rest ih =>
      intro pending ready n h
      show ((decrementChildren
          (Function.update pending child (pending child - 1))
          (if pending child - 1 < 1 then ready ++ [child] else ready)
          rest).1).count n = _
      have hch := h child
      rw [count_cons_self_nat] at hch
      by_cases hlt : pending child - 1 < 1
      · have hr0 : rest.count child = 0 := by
          push_cast at hch
          omega
        have hp1 : pending child = 1 := by
          rw [hr0] at hch
          push_cast at hch
          omega
        rw [if_pos hlt]
        rw [ih _ _ n ?hge]
        case hge =>
          intro m
          by_cases hm : m = child
          · subst hm
            rw [Function.update_same, hr0]
            push_cast
            omega
          · rw [Function.update_noteq hm]
            have h1 := h m
            have h2 : (rest.count m : Int) ≤ ((child :: rest).count m : Int) :=
              Int.ofNat_le.mpr (count_le_cons_nat child m rest)
            omega
        by_cases hn : n = child
        · subst hn
          have hone : (ready ++ [n]).count n = ready.count n + 1 := by
            simp
          rw [hone, Function.update_same, hr0]
          rw [if_neg (by simp)]
          rw [count_cons_self_nat, hr0, hp1]
          simp
        · have hone : (ready ++ [child]).count n = ready.count n := by
            rw [List.count_append, count_cons_ne_nat child n [] hn]
            simp
          rw [hone, Function.update_noteq hn,
            count_cons_ne_nat child n rest hn]
      · rw [if_neg hlt]
        rw [ih _ _ n ?hge2]
        case hge2 =>
          intro m
          by_cases hm : m = child
          · subst hm
            rw [Function.update_same]
            omega
          · rw [Function.update_noteq hm]
            have h1 := h m
            have h2 : (rest.count m : Int) ≤ ((child :: rest).count m : Int) :=
              Int.ofNat_le.mpr (count_le_cons_nat child m rest)
            omega
        by_cases hn : n = child
        · subst hn
          rw [Function.update_same, count_cons_self_nat]
          by_cases hc0 : rest.count n = 0
          · rw [if_neg (by rw [hc0]; push_cast; intro hco; omega),
              if_neg (by rw [hc0]; push_cast; intro hco; omega)]
          · by_cases heq : pending n - 1 = (rest.count n : Int)
            · rw [if_pos ⟨by omega, heq⟩,
                if_pos ⟨by omega, by push_cast; omega⟩]
            · rw [if_neg (fun hco => heq hco.2),
                if_neg (by push_cast; intro hco; exact heq (by omega))]
        · rw [Function.update_noteq hn, count_cons_ne_nat child n rest hn]

/-- Diamond graph used by the spec round-trip example:
edges (0,1), (0,2), (1,3), (2,3). -/
def diamondGraph : Graph :=
  Graph.mk [0, 1, 2, 3] [(0, 1), (0, 2), (1, 3), (2, 3)]

/-- Claim C9: _get_initial_tasks_and_deps returns num_tasks equal to the
number of nodes, pending_parents mapping every node to its in-degree, and
the ready list equal to the nodes of in-degree zero; on the diamond graph
with edges (0,1), (0,2), (1,3), (2,3) it yields num_tasks 4, ready [0]
and pending_parents 0, 1, 1, 2 for nodes 0 to 3. -/
theorem c9_get_initial_tasks_and_deps (g : Graph) :
    (get_initial_tasks_and_deps g).1 = g.nodes.length ∧
    (get_initial_tasks_and_deps g).2.1
      = g.nodes.filter (fun n => indeg g n == 0) ∧
    (∀ n ∈ g.nodes,
      (get_initial_tasks_and_deps g).2.2 n = (indeg g n : Int)) ∧
    (get_initial_tasks_and_deps diamondGraph).1 = 4 ∧
    (get_initial_tasks_and_deps diamondGraph).2.1 = [0] ∧
    (get_initial_tasks_and_deps diamondGraph).2.2 0 = 0 ∧
    (get_initial_tasks_and_deps diamondGraph).2.2 1 = 1 ∧
    (get_initial_tasks_and_deps diamondGraph).2.2 2 = 1 ∧
    (get_initial_tasks_and_deps diamondGraph).2.2 3 = 2 := by
  refine ⟨?_, ?_, ?_, by decide, by decide, by decide, by decide, by decide,
    by decide⟩
  · show (initTasksGo g g.nodes (0, [], fun _ => 0)).1 = g.nodes.length
    rw [initTasksGo_num]
    omega
  · show (initTasksGo g g.nodes (0, [], fun _ => 0)).2.1 = _
    rw [initTasksGo_ready]
    rfl
  · intro n hn
    exact initTasksGo_pending_mem g g.nodes 0 [] (fun _ => 0) n hn

/-- Witness for c9_get_initial_tasks_and_deps: the pending-parents clause
applied at node 3 of the diamond graph. -/
theorem c9_get_initial_tasks_and_deps_witness :
    3 ∈ diamondGraph.nodes ∧
    (get_initial_tasks_and_deps diamondGraph).2.2 3
      = (indeg diamondGraph 3 : Int) :=
  ⟨by decide,
   (c9_get_initial_tasks_and_deps diamondGraph).2.2.1 3 (by decide)⟩

theorem submitAll_submitted (l : List Nat) :
    ∀ s : LoopState, (submitAll s l).submitted = s.submitted ++ l := by
  induction l with
  | nil => intro s; simp [submitAll]
  | cons n rest ih =>
      intro s
      show (submitAll (submitOne s n) rest).submitted = _
      rw [ih]
      simp [submitOne]

theorem submitAll_unresolved (l : List Nat) :
    ∀ s : LoopState,
      (submitAll s l).unresolved = s.unresolved + (l.length : Int) := by
  induction l with
  | nil => intro s; simp [submitAll]
  | cons n rest ih =>
      intro s
      show (submitAll (submitOne s n) rest).unresolved = _
      rw [ih]
      simp [submitOne]
      omega

theorem submitAll_pending (l : List Nat) :
    ∀ s : LoopState, (submitAll s l).pending = s.pending := by
  induction l with
  | nil => intro s; simp [submitAll]
  | cons n rest ih =>
      intro s
      show (submitAll (submitOne s n) rest).pending = _
      rw [ih]
      simp [submitOne]

theorem submitAll_completedSeen (l : List Nat) :
    ∀ s : LoopState, (submitAll s l).completedSeen = s.completedSeen := by
  induction l with
  | nil => intro s; simp [submitAll]
  | cons n rest ih =>
      intro s
      show (submitAll (submitOne s n) rest).completedSeen = _
      rw [ih]
      simp [submitOne]

theorem submitAll_terminalsSeen (l : List Nat) :
    ∀ s : LoopState, (submitAll s l).terminalsSeen = s.terminalsSeen := by
  induction l with
  | nil => intro s; simp [submitAll]
  | cons n rest ih =>
      intro s
      show (submitAll (submitOne s n) rest).terminalsSeen = _
      rw [ih]
      simp [submitOne]

theorem submitAll_tasksLeft (l : List Nat) :
    ∀ s : LoopState, (submitAll s l).tasksLeft = s.tasksLeft := by
  induction l with
  | nil => intro s; simp [submitAll]
  | cons n rest ih =>
      intro s
      show (submitAll (submitOne s n) rest).tasksLeft = _
      rw [ih]
      simp [submitOne]

/-- Terminal statuses: the three that resolve a task. -/
def isTerminal : Status → Bool
  | Status.COMPLETED => true
  | Status.FAILED => true
  | Status.CANCELLED => true
  | _ => false

/-- One well-formedness condition on an arriving event, per the runner
contract of spec section 6: a terminal event names a node that was
submitted and has not yet produced a terminal event; non-terminal events
are RUNNING or DISPATCHING. -/
def wfStep (s : LoopState) (e : Event) : Bool :=
  if isTerminal e.status then
    s.submitted.contains e.node_id
      && !((s.terminalsSeen.map Prod.fst).contains e.node_id)
  else e.status == Status.RUNNING || e.status == Status.DISPATCHING

/-- Well-formed trace: every event the loop actually consumes satisfies
wfStep in the state where it is consumed. -/
def wfRun (g : Graph) : LoopState → List Event → Bool
  | _, [] => true
  | s, e :: rest =>
      if s.unresolved > 0 then wfStep s e && wfRun g (processEvent g s e) rest
      else true

theorem processEvent_running (g : Graph) (s : LoopState) (e : Event)
    (h : e.status = Status.RUNNING) : processEvent g s e = s := by
  simp [processEvent, h]

theorem processEvent_dispatching (g : Graph) (s : LoopState) (e : Event)
    (h : e.status = Status.DISPATCHING) :
    processEvent g s e
      = { s with dispatched := s.dispatched ++ [e.detail] } := by
  simp [processEvent, h]

theorem processEvent_other_terminal (g : Graph) (s : LoopState) (e : Event)
    (hR : ¬ e.status = Status.RUNNING) (hD : ¬ e.status = Status.DISPATCHING)
    (hC : ¬ e.status = Status.COMPLETED) :
    processEvent g s e
      = { s with unresolved := s.unresolved - 1,
                 terminalsSeen :=
                   s.terminalsSeen ++ [(e.node_id, e.status)] } := by
  simp [processEvent, hR, hD, hC]

theorem processEvent_completed (g : Graph) (s : LoopState) (e : Event)
    (h : e.status = Status.COMPLETED) :
    processEvent g s e
      = submitAll
          { s with unresolved := s.unresolved - 1,
                   tasksLeft := s.tasksLeft - 1,
                   pending := (handle_completed_node g e.node_id s.pending).2,
                   terminalsSeen :=
                     s.terminalsSeen ++ [(e.node_id, Status.COMPLETED)],
                   completedSeen := s.completedSeen ++ [e.node_id] }
          (handle_completed_node g e.node_id s.pending).1 := by
  simp [processEvent, h]

/-- Loop invariant of _run_planned_workflow over well-formed traces:
pending counts equal in-degree minus edges from completed parents, a node
is submitted exactly when all its parents have completed, submissions and
terminal events are duplicate-free, completed nodes were submitted, and
unresolved_tasks equals submissions minus consumed terminal events. -/
structure Inv (g : Graph) (s : LoopState) : Prop where
  pending_eq : ∀ n, s.pending n
    = (indeg g n : Int) - (edgesFromCompleted g s.completedSeen n : Int)
  submitted_nodup : s.submitted.Nodup
  submitted_iff : ∀ n, n ∈ s.submitted
    ↔ n ∈ g.nodes ∧ ∀ e ∈ g.edges, e.2 = n → e.1 ∈ s.completedSeen
  completed_sub : s.completedSeen ⊆ s.submitted
  terminals_fst_nodup : (s.terminalsSeen.map Prod.fst).Nodup
  completed_iff : ∀ n,
    n ∈ s.completedSeen ↔ (n, Status.COMPLETED) ∈ s.terminalsSeen
  unresolved_eq : s.unresolved
    = (s.submitted.length : Int) - (s.terminalsSeen.length : Int)
  terminals_sub : ∀ p ∈ s.terminalsSeen,
    p.1 ∈ s.submitted ∧ isTerminal p.2 = true

theorem pending_ge_counts (g : Graph) (s : LoopState) (hInv : Inv g s)
    (c : Nat) (hc : c ∉ s.completedSeen) :
    ∀ m, ((get_node_successors g c).count m : Int) ≤ s.pending m := by
  intro m
  rw [countEdges_succ]
  have hpe := hInv.pending_eq m
  have hle := edgesFromCompleted_le g (s.completedSeen ++ [c]) m
  rw [edgesFromCompleted_append g s.completedSeen c m hc] at hle
  omega

theorem handle_completed_pending (g : Graph) (c : Nat)
    (pending : Nat → Int) (n : Nat) :
    (handle_completed_node g c pending).2 n
      = pending n - (countEdges g c n : Int) := by
  unfold handle_completed_node
  rw [decrementChildren_pending, countEdges_succ]

theorem handle_completed_count (g : Graph) (s : LoopState) (hInv : Inv g s)
    (c : Nat) (hc : c ∉ s.completedSeen) (n : Nat) :
    ((handle_completed_node g c s.pending).1).count n
      = if 0 < countEdges g c n ∧ s.pending n = (countEdges g c n : Int)
        then 1 else 0 := by
  unfold handle_completed_node
  rw [decrementChildren_count _ _ _ _ (pending_ge_counts g s hInv c hc)]
  rw [countEdges_succ]
  simp

theorem handle_completed_mem (g : Graph) (s : LoopState) (hInv : Inv g s)
    (c : Nat) (hc : c ∉ s.completedSeen) (n : Nat) :
    n ∈ (handle_completed_node g c s.pending).1
      ↔ 0 < countEdges g c n
          ∧ s.pending n = (countEdges g c n : Int) := by
  rw [← List.count_pos_iff, handle_completed_count g s hInv c hc n]
  by_cases h : 0 < countEdges g c n ∧ s.pending n = (countEdges g c n : Int)
  · simp [h]
  · simp [h]

theorem handle_completed_nodup (g : Graph) (s : LoopState) (hInv : Inv g s)
    (c : Nat) (hc : c ∉ s.completedSeen) :
    ((handle_completed_node g c s.pending).1).Nodup := by
  rw [List.nodup_iff_count_le_one]
  intro a
  rw [handle_completed_count g s hInv c hc a]
  by_cases h : 0 < countEdges g c a ∧ s.pending a = (countEdges g c a : Int)
  · simp [h]
  · simp [h]

theorem processEvent_inv (g : Graph) (hg : WFGraph g) (s : LoopState)
    (e : Event) (hInv : Inv g s) (hw : wfStep s e = true) :
    Inv g (processEvent g s e) := by
  by_cases hR : e.status = Status.RUNNING
  · rw [processEvent_running g s e hR]
    exact hInv
  by_cases hD : e.status = Status.DISPATCHING
  · rw [processEvent_dispatching g s e hD]
    exact ⟨hInv.pending_eq, hInv.submitted_nodup, hInv.submitted_iff,
      hInv.completed_sub, hInv.terminals_fst_nodup, hInv.completed_iff,
      hInv.unresolved_eq, hInv.terminals_sub⟩
  have hT : isTerminal e.status = true := by
    cases hs : e.status <;> simp [isTerminal]
    · simp [wfStep, isTerminal, hs] at hw
    · exact hR hs
    · exact hD hs
  have hw' : e.node_id ∈ s.submitted
      ∧ ∀ x : Status, (e.node_id, x) ∉ s.terminalsSeen := by
    simp [wfStep, hT] at hw
    exact hw
  obtain ⟨hw1, hw2⟩ := hw'
  have hw2m : e.node_id ∉ s.terminalsSeen.map Prod.fst := by
    intro hm
    obtain ⟨p, hp, he⟩ := List.mem_map.mp hm
    have hpe : (e.node_id, p.2) = p := by
      rw [← he]
    exact hw2 p.2 (hpe ▸ hp)
  by_cases hC : e.status = Status.COMPLETED
  · -- COMPLETED: update pending, record completion, submit newly ready
    have hc_nc : e.node_id ∉ s.completedSeen := by
      intro h
      exact hw2 Status.COMPLETED ((hInv.completed_iff _).mp h)
    rw [processEvent_completed g s e hC]
    have hrn := handle_completed_nodup g s hInv e.node_id hc_nc
    have hrm := handle_completed_mem g s hInv e.node_id hc_nc
    refine ⟨?_, ?_, ?_, ?_, ?_, ?_, ?_, ?_⟩
    · intro n
      rw [submitAll_pending, submitAll_completedSeen]
      show (handle_completed_node g e.node_id s.pending).2 n = _
      rw [handle_completed_pending]
      rw [hInv.pending_eq n]
      show _ = (indeg g n : Int)
          - (edgesFromCompleted g (s.completedSeen ++ [e.node_id]) n : Int)
      rw [edgesFromCompleted_append g s.completedSeen e.node_id n hc_nc]
      push_cast
      ring
    · rw [submitAll_submitted]
      show (s.submitted
          ++ (handle_completed_node g e.node_id s.pending).1).Nodup
      rw [List.nodup_append]
      refine ⟨hInv.submitted_nodup, hrn, ?_⟩
      intro a ha hb
      have h1 := (hInv.submitted_iff a).mp ha
      have h2 := (hrm a).mp hb
      have hfull : edgesFromCompleted g s.completedSeen a = indeg g a :=
        (edgesFromCompleted_eq_indeg_iff g s.completedSeen a).mpr h1.2
      have := hInv.pending_eq a
      rw [hfull] at this
      rw [this] at h2
      omega
    · intro n
      rw [submitAll_submitted, submitAll_completedSeen]
      show n ∈ s.submitted ++ (handle_completed_node g e.node_id s.pending).1
        ↔ n ∈ g.nodes ∧ ∀ ed ∈ g.edges, ed.2 = n
            → ed.1 ∈ s.completedSeen ++ [e.node_id]
      constructor
      · intro h
        rcases List.mem_append.mp h with h | h
        · obtain ⟨hn, hp⟩ := (hInv.submitted_iff n).mp h
          exact ⟨hn, fun ed hed h2 =>
            List.mem_append_left _ (hp ed hed h2)⟩
        · obtain ⟨hpos, hpe⟩ := (hrm n).mp h
          obtain ⟨e0, he0, h01, h02⟩ :=
            countEdges_pos_mem g e.node_id n hpos
          refine ⟨h02 ▸ (hg.2 e0 he0).2, ?_⟩
          have hpeq := hInv.pending_eq n
          have happ := edgesFromCompleted_append g s.completedSeen
            e.node_id n hc_nc
          have hle := edgesFromCompleted_le g s.completedSeen n
          have hfull : edgesFromCompleted g (s.completedSeen ++ [e.node_id]) n
              = indeg g n := by omega
          exact (edgesFromCompleted_eq_indeg_iff g _ n).mp hfull
      · rintro ⟨hn, hpar⟩
        by_cases hall : ∀ ed ∈ g.edges, ed.2 = n → ed.1 ∈ s.completedSeen
        · exact List.mem_append_left _
            ((hInv.submitted_iff n).mpr ⟨hn, hall⟩)
        · push_neg at hall
          obtain ⟨e0, he0, h02, h01⟩ := hall
          have he0c : e0.1 = e.node_id := by
            rcases List.mem_append.mp (hpar e0 he0 h02) with h | h
            · exact absurd h h01
            · simpa using h
          refine List.mem_append_right _ ((hrm n).mpr ⟨?_, ?_⟩)
          · exact countEdges_pos_of_edge g e0 he0 e.node_id n he0c h02
          · have hfull : edgesFromCompleted g
                (s.completedSeen ++ [e.node_id]) n = indeg g n :=
              (edgesFromCompleted_eq_indeg_iff g _ n).mpr hpar
            have happ := edgesFromCompleted_append g s.completedSeen
              e.node_id n hc_nc
            have hpeq := hInv.pending_eq n
            omega
    · intro x hx
      rw [submitAll_completedSeen] at hx
      rw [submitAll_submitted]
      show x ∈ s.submitted ++ _
      rcases List.mem_append.mp hx with h | h
      · exact List.mem_append_left _ (hInv.completed_sub h)
      · have : x = e.node_id := by simpa using h
        subst this
        exact List.mem_append_left _ hw1
    · rw [submitAll_terminalsSeen]
      show ((s.terminalsSeen ++ [(e.node_id, Status.COMPLETED)]).map
          Prod.fst).Nodup
      rw [List.map_append, List.nodup_append]
      refine ⟨hInv.terminals_fst_nodup, by simp, ?_⟩
      intro a ha hb
      have : a = e.node_id := by simpa using hb
      exact hw2m (this ▸ ha)
    · intro n
      rw [submitAll_completedSeen, submitAll_terminalsSeen]
      show n ∈ s.completedSeen ++ [e.node_id]
        ↔ (n, Status.COMPLETED) ∈ s.terminalsSeen
            ++ [(e.node_id, Status.COMPLETED)]
      constructor
      · intro h
        rcases List.mem_append.mp h with h | h
        · exact List.mem_append_left _ ((hInv.completed_iff n).mp h)
        · have : n = e.node_id := by simpa using h
          subst this
          exact List.mem_append_right _ (by simp)
      · intro h
        rcases List.mem_append.mp h with h | h
        · exact List.mem_append_left _ ((hInv.completed_iff n).mpr h)
        · have : n = e.node_id := by simpa using h
          subst this
          exact List.mem_append_right _ (by simp)
    · rw [submitAll_unresolved, submitAll_submitted, submitAll_terminalsSeen]
      show s.unresolved - 1 + _ = _
      have := hInv.unresolved_eq
      simp only [List.length_append, List.length_cons, List.length_nil]
      push_cast
      omega
    · intro p hp
      rw [submitAll_terminalsSeen] at hp
      rw [submitAll_submitted]
      show p.1 ∈ s.submitted ++ _ ∧ _
      rcases List.mem_append.mp hp with h | h
      · obtain ⟨h1, h2⟩ := hInv.terminals_sub p h
        exact ⟨List.mem_append_left _ h1, h2⟩
      · have : p = (e.node_id, Status.COMPLETED) := by simpa using h
        subst this
        exact ⟨List.mem_append_left _ hw1, rfl⟩
  · -- FAILED or CANCELLED: only unresolved and the terminal log change
    rw [processEvent_other_terminal g s e hR hD hC]
    refine ⟨hInv.pending_eq, hInv.submitted_nodup, hInv.submitted_iff,
      hInv.completed_sub, ?_, ?_, ?_, ?_⟩
    · show ((s.terminalsSeen ++ [(e.node_id, e.status)]).map
          Prod.fst).Nodup
      rw [List.map_append, List.nodup_append]
      refine ⟨hInv.terminals_fst_nodup, by simp, ?_⟩
      intro a ha hb
      have : a = e.node_id := by simpa using hb
      exact hw2m (this ▸ ha)
    · intro n
      show n ∈ s.completedSeen
        ↔ (n, Status.COMPLETED) ∈ s.terminalsSeen
            ++ [(e.node_id, e.status)]
      constructor
      · intro h
        exact List.mem_append_left _ ((hInv.completed_iff n).mp h)
      · intro h
        rcases List.mem_append.mp h with h | h
        · exact (hInv.completed_iff n).mpr h
        · exfalso
          have : Status.COMPLETED = e.status := by
            have := List.mem_singleton.mp h
            exact congrArg Prod.snd this
          exact hC this.symm
    · show s.unresolved - 1 = _
      have := hInv.unresolved_eq
      simp only [List.length_append, List.length_cons, List.length_nil]
      push_cast
      omega
    · intro p hp
      rcases List.mem_append.mp hp with h | h
      · exact hInv.terminals_sub p h
      · have : p = (e.node_id, e.status) := by simpa using h
        subst this
        exact ⟨hw1, hT⟩

theorem indeg_eq_zero_of_not_mem (g : Graph) (hg : WFGraph g) (n : Nat)
    (h : n ∉ g.nodes) : indeg g n = 0 := by
  rw [indeg_eq_zero_iff]
  intro e he hen
  exact h (hen ▸ (hg.2 e he).2)

theorem initialLoopState_inv (g : Graph) (hg : WFGraph g) (st : Store) :
    Inv g (initialLoopState g st) := by
  have hsub : (initialLoopState g st).submitted
      = g.nodes.filter (fun n => indeg g n == 0) := by
    unfold initialLoopState
    rw [submitAll_submitted]
    show [] ++ (get_initial_tasks_and_deps g).2.1 = _
    rw [List.nil_append]
    show (initTasksGo g g.nodes (0, [], fun _ => 0)).2.1 = _
    rw [initTasksGo_ready]
    rfl
  have hpend : ∀ n, (initialLoopState g st).pending n = (indeg g n : Int) := by
    intro n
    unfold initialLoopState
    rw [submitAll_pending]
    show (get_initial_tasks_and_deps g).2.2 n = _
    by_cases hn : n ∈ g.nodes
    · exact initTasksGo_pending_mem g g.nodes 0 [] (fun _ => 0) n hn
    · show (initTasksGo g g.nodes (0, [], fun _ => 0)).2.2 n = _
      rw [initTasksGo_pending_notmem g g.nodes 0 [] (fun _ => 0) n hn]
      rw [indeg_eq_zero_of_not_mem g hg n hn]
      rfl
  have hcomp : (initialLoopState g st).completedSeen = [] := by
    unfold initialLoopState
    rw [submitAll_completedSeen]
  have hterm : (initialLoopState g st).terminalsSeen = [] := by
    unfold initialLoopState
    rw [submitAll_terminalsSeen]
  have hunres : (initialLoopState g st).unresolved
      = ((get_initial_tasks_and_deps g).2.1.length : Int) := by
    unfold initialLoopState
    rw [submitAll_unresolved]
    show 0 + _ = _
    omega
  have hsublen : (initialLoopState g st).submitted.length
      = (get_initial_tasks_and_deps g).2.1.length := by
    unfold initialLoopState
    rw [submitAll_submitted]
    simp
  refine ⟨?_, ?_, ?_, ?_, ?_, ?_, ?_, ?_⟩
  · intro n
    rw [hpend, hcomp, edgesFromCompleted_nil]
    omega
  · rw [hsub]
    exact List.Nodup.filter _ hg.1
  · intro n
    rw [hsub, hcomp, List.mem_filter]
    constructor
    · rintro ⟨hn, hd⟩
      refine ⟨hn, fun e he h2 => ?_⟩
      exfalso
      have h0 : indeg g n = 0 := by simpa using hd
      exact (indeg_eq_zero_iff g n).mp h0 e he h2
    · rintro ⟨hn, hall⟩
      refine ⟨hn, ?_⟩
      have h0 : indeg g n = 0 := by
        rw [indeg_eq_zero_iff]
        intro e he h2
        simpa using hall e he h2
      simpa using h0
  · rw [hcomp]
    intro x hx
    cases hx
  · rw [hterm]
    simp
  · intro n
    rw [hcomp, hterm]
    simp
  · rw [hunres, hterm, hsublen]
    simp
  · rw [hterm]
    intro p hp
    cases hp

theorem runLoop_inv (g : Graph) (hg : WFGraph g) :
    ∀ (events : List Event) (s : LoopState), Inv g s
      → wfRun g s events = true → Inv g (runLoop g s events).1 := by
  intro events
  induction events with
  | nil =>
      intro s h _
      exact h
  | cons e rest ih =>
      intro s h hw
      by_cases hpos : s.unresolved > 0
      · rw [runLoop_cons_pos g s e rest hpos]
        have hw2 : wfStep s e = true
            ∧ wfRun g (processEvent g s e) rest = true := by
          have : wfRun g s (e :: rest)
              = (wfStep s e && wfRun g (processEvent g s e) rest) := by
            show (if s.unresolved > 0
                then wfStep s e && wfRun g (processEvent g s e) rest
                else true) = _
            rw [if_pos hpos]
          rw [this] at hw
          exact Bool.and_eq_true_iff.mp hw
        exact ih _ (processEvent_inv g hg s e h hw2.1) hw2.2
      · rw [runLoop_nonpos g s (e :: rest) (by omega)]
        exact h

theorem processEvent_pending_le (g : Graph) (s : LoopState) (e : Event)
    (n : Nat) : (processEvent g s e).pending n ≤ s.pending n := by
  by_cases hR : e.status = Status.RUNNING
  · rw [processEvent_running g s e hR]
  · by_cases hD : e.status = Status.DISPATCHING
    · rw [processEvent_dispatching g s e hD]
    · by_cases hC : e.status = Status.COMPLETED
      · rw [processEvent_completed g s e hC]
        rw [submitAll_pending]
        show (handle_completed_node g e.node_id s.pending).2 n ≤ _
        rw [handle_completed_pending]
        omega
      · rw [processEvent_other_terminal g s e hR hD hC]

theorem runLoop_pending_le (g : Graph) :
    ∀ (events : List Event) (s : LoopState) (n : Nat),
      (runLoop g s events).1.pending n ≤ s.pending n := by
  intro events
  induction events with
  | nil => intro s n; exact le_refl _
  | cons e rest ih =>
      intro s n
      by_cases hpos : s.unresolved > 0
      · rw [runLoop_cons_pos g s e rest hpos]
        exact le_trans (ih _ n) (processEvent_pending_le g s e n)
      · rw [runLoop_nonpos g s (e :: rest) (by omega)]

theorem runLoop_leftover (g : Graph) :
    ∀ (events : List Event) (s : LoopState),
      (runLoop g s events).2 ≠ [] → (runLoop g s events).1.unresolved ≤ 0 := by
  intro events
  induction events with
  | nil =>
      intro s h
      exact absurd rfl h
  | cons e rest ih =>
      intro s h
      by_cases hpos : s.unresolved > 0
      · rw [runLoop_cons_pos g s e rest hpos] at h ⊢
        exact ih _ h
      · rw [runLoop_nonpos g s (e :: rest) (by omega)]
        show s.unresolved ≤ 0
        omega

/-- Nonempty directed path from a to b along graph edges. -/
inductive Reaches (g : Graph) : Nat → Nat → Prop
  | step (a b : Nat) : (a, b) ∈ g.edges → Reaches g a b
  | tail (a b c : Nat) : Reaches g a b → (b, c) ∈ g.edges → Reaches g a c

theorem nodup_fst_unique (l : List (Nat × Status))
    (h : (l.map Prod.fst).Nodup) (a : Nat) (x y : Status)
    (hx : (a, x) ∈ l) (hy : (a, y) ∈ l) : x = y := by
  induction l with
  | nil => cases hx
  | cons p rest ih =>
      rw [List.map_cons, List.nodup_cons] at h
      rcases List.mem_cons.mp hx with hx1 | hx1
      · rcases List.mem_cons.mp hy with hy1 | hy1
        · rw [← hx1] at hy1
          exact (Prod.mk.injEq _ _ _ _).mp hy1.symm |>.2
        · exfalso
          apply h.1
          have hmem : a ∈ List.map Prod.fst rest := by
            simpa using List.mem_map_of_mem Prod.fst hy1
          have hpa : p.1 = a := by rw [← hx1]
          rw [hpa]
          exact hmem
      · rcases List.mem_cons.mp hy with hy1 | hy1
        · exfalso
          apply h.1
          have hmem : a ∈ List.map Prod.fst rest := by
            simpa using List.mem_map_of_mem Prod.fst hx1
          have hpa : p.1 = a := by rw [← hy1]
          rw [hpa]
          exact hmem
        · exact ih h.2 hx1 hy1

theorem blocked_step (g : Graph) (s : LoopState) (hInv : Inv g s)
    (p n : Nat) (hpn : (p, n) ∈ g.edges) (hp : p ∉ s.completedSeen) :
    n ∉ s.submitted ∧ 1 ≤ s.pending n := by
  constructor
  · intro hn
    exact hp (((hInv.submitted_iff n).mp hn).2 (p, n) hpn rfl)
  · have hlt := edgesFromCompleted_lt g s.completedSeen n (p, n) hpn rfl hp
    have := hInv.pending_eq n
    omega

theorem blocked_of_ancestor (g : Graph) (s : LoopState) (hInv : Inv g s)
    (a : Nat) (ha : a ∉ s.completedSeen) :
    ∀ n, Reaches g a n → n ∉ s.submitted ∧ 1 ≤ s.pending n := by
  intro n hr
  induction hr with
  | step b hab => exact blocked_step g s hInv a b hab ha
  | tail b c hab hbc ih =>
      have hb_nc : b ∉ s.completedSeen := fun h => ih.1 (hInv.completed_sub h)
      exact blocked_step g s hInv b c hbc hb_nc

theorem terminals_length_le (g : Graph) (s : LoopState) (hInv : Inv g s) :
    s.terminalsSeen.length ≤ s.submitted.length := by
  have hsubset : (s.terminalsSeen.map Prod.fst) ⊆ s.submitted := by
    intro a ha
    obtain ⟨p, hp, he⟩ := List.mem_map.mp ha
    exact he ▸ (hInv.terminals_sub p hp).1
  have hsp := List.subperm_of_subset hInv.terminals_fst_nodup hsubset
  have := hsp.length_le
  simpa using this

/-- Claim C3: across a run of the event loop, the pending-parent counter
of every node equals its in-degree minus the number of edges from
completed parents (each distinct parallel edge decrementing exactly
once), counters only decrease at every step, and the submission log is
duplicate-free: a node is returned ready and submitted at most once in
the tracker's lifetime. -/
theorem c3_readiness_tracker (g : Graph) (st : Store) (events : List Event)
    (hg : WFGraph g)
    (hw : wfRun g (initialLoopState g st) events = true) :
    (runLoop g (initialLoopState g st) events).1.submitted.Nodup ∧
    (∀ n, (runLoop g (initialLoopState g st) events).1.pending n
        = (indeg g n : Int)
          - (edgesFromCompleted g
              (runLoop g (initialLoopState g st) events).1.completedSeen n
              : Int)) ∧
    (∀ (s : LoopState) (e : Event) (n : Nat),
      (processEvent g s e).pending n ≤ s.pending n) ∧
    (∀ n, (runLoop g (initialLoopState g st) events).1.pending n
        ≤ (initialLoopState g st).pending n) := by
  have hInv := runLoop_inv g hg events (initialLoopState g st)
    (initialLoopState_inv g hg st) hw
  exact ⟨hInv.submitted_nodup, hInv.pending_eq,
    fun s e n => processEvent_pending_le g s e n,
    fun n => runLoop_pending_le g events (initialLoopState g st) n⟩

/-- Duplicate-edge two-node graph used to witness C3. -/
def c3Graph : Graph := Graph.mk [0, 1] [(0, 1), (0, 1)]

/-- Events for the C3 witness: node 0 completes, then node 1. -/
def c3Events : List Event :=
  [Event.mk 0 Status.COMPLETED "", Event.mk 1 Status.COMPLETED ""]

/-- Witness for c3_readiness_tracker on a graph with a duplicate
parent-to-child edge. -/
theorem c3_readiness_tracker_witness :
    WFGraph c3Graph ∧
    wfRun c3Graph (initialLoopState c3Graph sampleStore) c3Events = true ∧
    ((runLoop c3Graph (initialLoopState c3Graph sampleStore)
        c3Events).1.submitted.Nodup ∧
      (∀ n, (runLoop c3Graph (initialLoopState c3Graph sampleStore)
            c3Events).1.pending n
          = (indeg c3Graph n : Int)
            - (edgesFromCompleted c3Graph
                (runLoop c3Graph (initialLoopState c3Graph sampleStore)
                  c3Events).1.completedSeen n : Int)) ∧
      (∀ (s : LoopState) (e : Event) (n : Nat),
        (processEvent c3Graph s e).pending n ≤ s.pending n) ∧
      (∀ n, (runLoop c3Graph (initialLoopState c3Graph sampleStore)
            c3Events).1.pending n
          ≤ (initialLoopState c3Graph sampleStore).pending n)) :=
  ⟨by decide, by decide,
   c3_readiness_tracker c3Graph sampleStore c3Events (by decide) (by decide)⟩

/-- Claim C2: over any well-formed run, the set of submitted nodes is
exactly the set of nodes all of whose parents completed during the run
(the closure of the initial in-degree-zero ready set under "all parents
completed"); every strict descendant of a node whose terminal status is
FAILED or CANCELLED is never submitted and keeps a pending count of at
least one; and the loop stops exactly when the outstanding count reaches
zero, which happens precisely when every submission has been matched by
a terminal event. -/
theorem c2_submission_closure (g : Graph) (st : Store) (events : List Event)
    (hg : WFGraph g)
    (hw : wfRun g (initialLoopState g st) events = true) :
    (∀ n, n ∈ (runLoop g (initialLoopState g st) events).1.submitted
      ↔ n ∈ g.nodes ∧ ∀ e ∈ g.edges, e.2 = n
          → e.1 ∈ (runLoop g (initialLoopState g st) events).1.completedSeen) ∧
    (∀ a n,
      ((a, Status.FAILED)
          ∈ (runLoop g (initialLoopState g st) events).1.terminalsSeen
        ∨ (a, Status.CANCELLED)
          ∈ (runLoop g (initialLoopState g st) events).1.terminalsSeen)
      → Reaches g a n
      → n ∉ (runLoop g (initialLoopState g st) events).1.submitted
        ∧ 1 ≤ (runLoop g (initialLoopState g st) events).1.pending n) ∧
    ((runLoop g (initialLoopState g st) events).1.unresolved = 0
      ↔ (runLoop g (initialLoopState g st) events).1.terminalsSeen.length
        = (runLoop g (initialLoopState g st) events).1.submitted.length) ∧
    (∀ (s : LoopState) (evs : List Event),
      s.unresolved ≤ 0 → runLoop g s evs = (s, evs)) := by
  have hInv := runLoop_inv g hg events (initialLoopState g st)
    (initialLoopState_inv g hg st) hw
  refine ⟨hInv.submitted_iff, ?_, ?_, fun s evs h => runLoop_nonpos g s evs h⟩
  · intro a n hterm hr
    have ha : a ∉ (runLoop g (initialLoopState g st) events).1.completedSeen := by
      intro hc
      have hcompl := (hInv.completed_iff a).mp hc
      rcases hterm with h | h
      · exact absurd (nodup_fst_unique _ hInv.terminals_fst_nodup a
          Status.COMPLETED Status.FAILED hcompl h) (by decide)
      · exact absurd (nodup_fst_unique _ hInv.terminals_fst_nodup a
          Status.COMPLETED Status.CANCELLED hcompl h) (by decide)
    exact blocked_of_ancestor g _ hInv a ha n hr
  · have := hInv.unresolved_eq
    constructor
    · intro h
      omega
    · intro h
      omega

/-- Chain graph 0 to 1 to 2 used to witness C2. -/
def c2Graph : Graph := Graph.mk [0, 1, 2] [(0, 1), (1, 2)]

/-- Events for the C2 witness: node 0 completes and node 1 fails, so
node 2 is starved. -/
def c2Events : List Event :=
  [Event.mk 0 Status.COMPLETED "", Event.mk 1 Status.FAILED ""]

/-- Witness for c2_submission_closure on the chain with a failure. -/
theorem c2_submission_closure_witness :
    WFGraph c2Graph ∧
    wfRun c2Graph (initialLoopState c2Graph sampleStore) c2Events = true ∧
    ((∀ n, n ∈ (runLoop c2Graph (initialLoopState c2Graph sampleStore)
          c2Events).1.submitted
        ↔ n ∈ c2Graph.nodes ∧ ∀ e ∈ c2Graph.edges, e.2 = n
            → e.1 ∈ (runLoop c2Graph (initialLoopState c2Graph sampleStore)
                c2Events).1.completedSeen) ∧
      (∀ a n,
        ((a, Status.FAILED)
            ∈ (runLoop c2Graph (initialLoopState c2Graph sampleStore)
                c2Events).1.terminalsSeen
          ∨ (a, Status.CANCELLED)
            ∈ (runLoop c2Graph (initialLoopState c2Graph sampleStore)
                c2Events).1.terminalsSeen)
        → Reaches c2Graph a n
        → n ∉ (runLoop c2Graph (initialLoopState c2Graph sampleStore)
              c2Events).1.submitted
          ∧ 1 ≤ (runLoop c2Graph (initialLoopState c2Graph sampleStore)
              c2Events).1.pending n) ∧
      ((runLoop c2Graph (initialLoopState c2Graph sampleStore)
            c2Events).1.unresolved = 0
        ↔ (runLoop c2Graph (initialLoopState c2Graph sampleStore)
            c2Events).1.terminalsSeen.length
          = (runLoop c2Graph (initialLoopState c2Graph sampleStore)
              c2Events).1.submitted.length) ∧
      (∀ (s : LoopState) (evs : List Event),
        s.unresolved ≤ 0 → runLoop c2Graph s evs = (s, evs))) :=
  ⟨by decide, by decide,
   c2_submission_closure c2Graph sampleStore c2Events (by decide) (by decide)⟩

/-- Claim C4: a RUNNING event leaves the loop state unchanged; a
DISPATCHING event only records the fire-and-forget run_dispatch call for
the child dispatch; FAILED and CANCELLED decrement the outstanding count
by one and submit nothing; COMPLETED decrements it by one and increments
it once per newly submitted node; the loop proceeds to finalization
exactly when the count reaches zero, and when it does every submitted
node, including one that earlier emitted DISPATCHING, has produced its
terminal event. -/
theorem c4_outstanding_counts (g : Graph) (st : Store) (events : List Event)
    (hg : WFGraph g)
    (hw : wfRun g (initialLoopState g st) events = true) :
    (∀ (s : LoopState) (e : Event), e.status = Status.RUNNING
      → processEvent g s e = s) ∧
    (∀ (s : LoopState) (e : Event), e.status = Status.DISPATCHING
      → processEvent g s e
        = { s with dispatched := s.dispatched ++ [e.detail] }) ∧
    (∀ (s : LoopState) (e : Event),
      e.status = Status.FAILED ∨ e.status = Status.CANCELLED
      → (processEvent g s e).unresolved = s.unresolved - 1
        ∧ (processEvent g s e).submitted = s.submitted) ∧
    (∀ (s : LoopState) (e : Event), e.status = Status.COMPLETED
      → (processEvent g s e).unresolved + 1 + (s.submitted.length : Int)
        = s.unresolved + ((processEvent g s e).submitted.length : Int)) ∧
    (∀ (s : LoopState) (evs : List Event),
      s.unresolved ≤ 0 → runLoop g s evs = (s, evs)) ∧
    ((runLoop g (initialLoopState g st) events).2 ≠ []
      → (runLoop g (initialLoopState g st) events).1.unresolved = 0) ∧
    ((runLoop g (initialLoopState g st) events).1.unresolved = 0
      → ∀ n ∈ (runLoop g (initialLoopState g st) events).1.submitted,
          ∃ stt, (n, stt)
              ∈ (runLoop g (initialLoopState g st) events).1.terminalsSeen
            ∧ isTerminal stt = true) := by
  have hInv := runLoop_inv g hg events (initialLoopState g st)
    (initialLoopState_inv g hg st) hw
  refine ⟨?_, ?_, ?_, ?_, fun s evs h => runLoop_nonpos g s evs h, ?_, ?_⟩
  · exact fun s e h => processEvent_running g s e h
  · exact fun s e h => processEvent_dispatching g s e h
  · intro s e h
    rcases h with h | h
    · rw [processEvent_other_terminal g s e (by simp [h]) (by simp [h])
        (by simp [h])]
      exact ⟨rfl, rfl⟩
    · rw [processEvent_other_terminal g s e (by simp [h]) (by simp [h])
        (by simp [h])]
      exact ⟨rfl, rfl⟩
  · intro s e h
    rw [processEvent_completed g s e h]
    rw [submitAll_unresolved, submitAll_submitted]
    show s.unresolved - 1 + _ + 1 + _ = _
    rw [List.length_append]
    push_cast
    ring
  · intro hne
    have hle := runLoop_leftover g events (initialLoopState g st) hne
    have heq := hInv.unresolved_eq
    have hlen := terminals_length_le g _ hInv
    omega
  · intro h0 n hn
    have heq := hInv.unresolved_eq
    have hlen : (runLoop g (initialLoopState g st)
        events).1.terminalsSeen.length
        = (runLoop g (initialLoopState g st) events).1.submitted.length := by
      omega
    have hsubset : ((runLoop g (initialLoopState g st)
        events).1.terminalsSeen.map Prod.fst)
        ⊆ (runLoop g (initialLoopState g st) events).1.submitted := by
      intro a ha
      obtain ⟨p, hp, he⟩ := List.mem_map.mp ha
      exact he ▸ (hInv.terminals_sub p hp).1
    have hsp := List.subperm_of_subset hInv.terminals_fst_nodup hsubset
    have hperm := hsp.perm_of_length_le (by simpa using hlen.symm.le)
    have hmem : n ∈ (runLoop g (initialLoopState g st)
        events).1.terminalsSeen.map Prod.fst := hperm.mem_iff.mpr hn
    obtain ⟨p, hp, he⟩ := List.mem_map.mp hmem
    refine ⟨p.2, ?_, (hInv.terminals_sub p hp).2⟩
    have : (n, p.2) = p := by
      rw [← he]
    exact this ▸ hp

/-- Single-node graph used to witness C4. -/
def c4Graph : Graph := Graph.mk [0] []

/-- Events for the C4 witness: node 0 first reports DISPATCHING, then
COMPLETED. -/
def c4Events : List Event :=
  [Event.mk 0 Status.DISPATCHING "sub", Event.mk 0 Status.COMPLETED ""]

/-- Witness for c4_outstanding_counts on a node that dispatches a
sublattice before completing. -/
theorem c4_outstanding_counts_witness :
    WFGraph c4Graph ∧
    wfRun c4Graph (initialLoopState c4Graph sampleStore) c4Events = true ∧
    ((∀ (s : LoopState) (e : Event), e.status = Status.RUNNING
        → processEvent c4Graph s e = s) ∧
      (∀ (s : LoopState) (e : Event), e.status = Status.DISPATCHING
        → processEvent c4Graph s e
          = { s with dispatched := s.dispatched ++ [e.detail] }) ∧
      (∀ (s : LoopState) (e : Event),
        e.status = Status.FAILED ∨ e.status = Status.CANCELLED
        → (processEvent c4Graph s e).unresolved = s.unresolved - 1
          ∧ (processEvent c4Graph s e).submitted = s.submitted) ∧
      (∀ (s : LoopState) (e : Event), e.status = Status.COMPLETED
        → (processEvent c4Graph s e).unresolved + 1
            + (s.submitted.length : Int)
          = s.unresolved
            + ((processEvent c4Graph s e).submitted.length : Int)) ∧
      (∀ (s : LoopState) (evs : List Event),
        s.unresolved ≤ 0 → runLoop c4Graph s evs = (s, evs)) ∧
      ((runLoop c4Graph (initialLoopState c4Graph sampleStore)
            c4Events).2 ≠ []
        → (runLoop c4Graph (initialLoopState c4Graph sampleStore)
            c4Events).1.unresolved = 0) ∧
      ((runLoop c4Graph (initialLoopState c4Graph sampleStore)
            c4Events).1.unresolved = 0
        → ∀ n ∈ (runLoop c4Graph (initialLoopState c4Graph sampleStore)
              c4Events).1.submitted,
            ∃ stt, (n, stt)
                ∈ (runLoop c4Graph (initialLoopState c4Graph sampleStore)
                    c4Events).1.terminalsSeen
              ∧ isTerminal stt = true)) :=
  ⟨by decide, by decide,
   c4_outstanding_counts c4Graph sampleStore c4Events (by decide)
     (by decide)⟩

end Covalent
